import Mathlib

/-!
Verification of the custom-commander VS Code extension (extension.js).

The development shallowly embeds the pure core of the extension:
strings from the JavaScript runtime are modelled as `List Char`
(with `String` used for command identifiers), JavaScript string and
array primitives are reproduced as executable Lean functions, and the
stateful functions (`updateRecentlyUsedCommands`, `loadCustomCommands`,
`registerCustomCommands`, `executeCustomCommand`) become explicit
state-passing functions whose externally visible effects (notifications,
clipboard writes, text replacements, registrations) are collected in
result records.
-/

/-! ## JavaScript string / array primitives -/

/-- JS `Array.prototype.indexOf` / `String.prototype.indexOf` on a list of
command ids: the index of the first occurrence, `-1` if absent. -/
def jsIndexOf (l : List String) (a : String) : Int :=
  match l with
  | [] => -1
  | x :: xs =>
    if x == a then 0
    else if jsIndexOf xs a == -1 then -1 else jsIndexOf xs a + 1

/-- JS `String.prototype.trim` (ASCII whitespace suffices for the model). -/
def jsTrim (s : List Char) : List Char :=
  ((s.dropWhile Char.isWhitespace).reverse.dropWhile Char.isWhitespace).reverse

/-- JS `String.prototype.startsWith`. -/
def jsStartsWith (pre s : List Char) : Bool :=
  pre.isPrefixOf s

/-- JS `String.prototype.includes`: substring occurrence. -/
def jsIncludes (pat s : List Char) : Bool :=
  decide (pat <:+: s)

/-- JS `String.prototype.split` with a string separator: greedy
left-to-right splitting on every occurrence of `sep`.  An empty separator
splits into single characters, as in JS. -/
def jsSplit (sep : List Char) (s : List Char) : List (List Char) :=
  if hsep : sep.isEmpty then s.map (fun c => [c])
  else
    match s with
    | [] => [[]]
    | c :: rest =>
      if sep.isPrefixOf (c :: rest) then
        [] :: jsSplit sep ((c :: rest).drop sep.length)
      else
        match jsSplit sep rest with
        | [] => [[c]]
        | t :: ts => (c :: t) :: ts
termination_by s.length
decreasing_by
  · simp only [List.length_drop]
    have hlen : 1 ≤ sep.length := by
      cases sep with
      | nil => simp [List.isEmpty] at hsep
      | cons a as => simp
    simp only [List.length_cons]
    omega
  · simp

/-- JS `String.prototype.replace` with a string pattern: replaces the
first occurrence of `pat` (if any) by `repl`. -/
def jsReplace (pat repl : List Char) (s : List Char) : List Char :=
  if pat.isPrefixOf s then repl ++ s.drop pat.length
  else
    match s with
    | [] => []
    | c :: rest => c :: jsReplace pat repl rest

/-- JS truthiness of an optional string field together with `||`:
`undefined` and the empty string are falsy. -/
def jsOr (v : Option (List Char)) (dflt : List Char) : List Char :=
  match v with
  | some s => if s.isEmpty then dflt else s
  | none => dflt

/-- JS object field write `acc[key] = value` on an object represented as
an association list with unique keys (overwrite if present, append
otherwise). -/
def jsObjectSet (obj : List (List Char × List Char)) (key value : List Char) :
    List (List Char × List Char) :=
  match obj with
  | [] => [(key, value)]
  | kv :: rest =>
    if kv.1 == key then (key, value) :: rest
    else kv :: jsObjectSet rest key value

/-- JS object field read `obj[key]`, `none` for `undefined`. -/
def jsObjectGet (obj : List (List Char × List Char)) (key : List Char) :
    Option (List Char) :=
  match obj with
  | [] => none
  | kv :: rest => if kv.1 == key then some kv.2 else jsObjectGet rest key

/-! ## Recency tracker: `updateRecentlyUsedCommands` -/

/-- `updateRecentlyUsedCommands(commandId)` (extension.js lines 224-235):
remove the id from its current position if present (`indexOf` + `splice`),
then `unshift` it to the front.  The global `recentlyUsedCommands` array is
passed and returned explicitly.  (The subsequent `reloadCommands(true)`
call is accounted for in `executeCustomCommand` below.) -/
def updateRecentlyUsedCommands (commandId : String)
    (recentlyUsedCommands : List String) : List String :=
  let existingIndex := jsIndexOf recentlyUsedCommands commandId
  let removed :=
    if existingIndex > -1 then recentlyUsedCommands.eraseIdx existingIndex.toNat
    else recentlyUsedCommands
  commandId :: removed

/-- The recency list reached from the empty startup state by a sequence
of touches (earliest touch first). -/
def touchSequence (touches : List String) : List String :=
  touches.foldl (fun l id => updateRecentlyUsedCommands id l) []

/-- Spec-side order: the ids of a touch history (given most-recent-first),
de-duplicated keeping the most recent occurrence — "most-recent-first,
each id at most once". -/
def mostRecentFirst : List String → List String
  | [] => []
  | t :: ts => t :: (mostRecentFirst ts).erase t

/-! ### Recency tracker lemmas -/

theorem jsIndexOf_ge_neg_one (l : List String) (a : String) : -1 ≤ jsIndexOf l a := by
  induction l with
  | nil => simp [jsIndexOf]
  | cons x xs ih =>
    rw [jsIndexOf]
    split
    · omega
    · split
      · omega
      · omega

theorem jsIndexOf_eq_neg_one_iff (l : List String) (a : String) :
    jsIndexOf l a = -1 ↔ a ∉ l := by
  induction l with
  | nil => simp [jsIndexOf]
  | cons x xs ih =>
    rw [jsIndexOf]
    by_cases hx : (x == a) = true
    · have hxa : x = a := by simpa using hx
      simp [hx, hxa]
    · have hxa : x ≠ a := by simpa using hx
      have hge := jsIndexOf_ge_neg_one xs a
      rw [if_neg hx]
      by_cases hr : (jsIndexOf xs a == -1) = true
      · have hr' : jsIndexOf xs a = -1 := by simpa using hr
        rw [if_pos hr]
        simp only [List.mem_cons, not_or]
        constructor
        · intro _
          exact ⟨fun h => hxa h.symm, ih.mp hr'⟩
        · intro _
          trivial
      · have hr' : jsIndexOf xs a ≠ -1 := by simpa using hr
        rw [if_neg hr]
        simp only [List.mem_cons, not_or]
        constructor
        · intro h
          exfalso
          omega
        · intro h
          exact absurd (ih.mpr h.2) hr'

theorem jsIndexOf_erase (a : String) (l : List String) :
    (if jsIndexOf l a > -1 then l.eraseIdx (jsIndexOf l a).toNat else l)
      = l.erase a := by
  induction l with
  | nil => simp [jsIndexOf]
  | cons x xs ih =>
    by_cases hx : (x == a) = true
    · have hxa : x = a := by simpa using hx
      rw [jsIndexOf, if_pos hx, List.erase_cons, if_pos hx]
      norm_num [List.eraseIdx]
    · have hxa : x ≠ a := by simpa using hx
      rw [jsIndexOf, if_neg hx, List.erase_cons, if_neg hx]
      by_cases hr : (jsIndexOf xs a == -1) = true
      · have hr' : jsIndexOf xs a = -1 := by simpa using hr
        have hnm : a ∉ xs := (jsIndexOf_eq_neg_one_iff xs a).mp hr'
        rw [if_pos hr, if_neg (by omega : ¬((-1 : Int) > -1)),
          List.erase_of_not_mem hnm]
      · have hge := jsIndexOf_ge_neg_one xs a
        have hr' : jsIndexOf xs a ≠ -1 := by simpa using hr
        have htoNat : (jsIndexOf xs a + 1).toNat = (jsIndexOf xs a).toNat + 1 := by
          omega
        rw [if_neg hr, if_pos (by omega : jsIndexOf xs a + 1 > -1), htoNat,
          List.eraseIdx_cons_succ]
        rw [if_pos (by omega : jsIndexOf xs a > -1)] at ih
        rw [ih]

theorem updateRecentlyUsedCommands_eq_cons_erase (id : String) (l : List String) :
    updateRecentlyUsedCommands id l = id :: l.erase id := by
  unfold updateRecentlyUsedCommands
  rw [← jsIndexOf_erase id l]

theorem mem_mostRecentFirst (a : String) (xs : List String) :
    a ∈ mostRecentFirst xs ↔ a ∈ xs := by
  induction xs with
  | nil => simp [mostRecentFirst]
  | cons x xs ih =>
    simp only [mostRecentFirst, List.mem_cons]
    by_cases hax : a = x
    · simp [hax]
    · rw [List.mem_erase_of_ne hax, ih]

theorem nodup_mostRecentFirst (xs : List String) : (mostRecentFirst xs).Nodup := by
  induction xs with
  | nil => simp [mostRecentFirst]
  | cons x xs ih =>
    refine List.Nodup.cons ?_ (ih.erase x)
    exact ih.not_mem_erase

theorem mostRecentFirst_append_single (xs : List String) (t : String) :
    mostRecentFirst (xs ++ [t])
      = if t ∈ xs then mostRecentFirst xs else mostRecentFirst xs ++ [t] := by
  induction xs with
  | nil => simp [mostRecentFirst]
  | cons x xs ih =>
    rw [List.cons_append, mostRecentFirst, mostRecentFirst, ih]
    by_cases hx : t ∈ xs
    · rw [if_pos hx, if_pos (List.mem_cons.mpr (Or.inr hx))]
    · rw [if_neg hx]
      by_cases hxt : t = x
      · subst hxt
        have hxm : t ∉ mostRecentFirst xs := by
          rw [mem_mostRecentFirst]; exact hx
        rw [if_pos (List.mem_cons.mpr (Or.inl rfl)),
          List.erase_append_right _ hxm, List.erase_cons_head,
          List.append_nil, List.erase_of_not_mem hxm]
      · have hmem : t ∉ x :: xs := by simp [hxt, hx]
        rw [if_neg hmem, List.cons_append]
        by_cases hxm : x ∈ mostRecentFirst xs
        · rw [List.erase_append_left _ hxm]
        · rw [List.erase_append_right _ hxm, List.erase_of_not_mem hxm,
            List.erase_of_not_mem (by simp [Ne.symm hxt] : x ∉ [t])]

theorem filter_ne_filter_not_mem (l : List String) (t : String) (ts : List String) :
    (l.filter (fun x => x != t)).filter (fun x => decide (x ∉ ts))
      = l.filter (fun x => decide (x ∉ t :: ts)) := by
  rw [List.filter_filter]
  refine List.filter_congr ?_
  intro x _
  by_cases hxt : x = t
  · simp [hxt]
  · simp [hxt]

theorem touchSequence_foldl (ts : List String) :
    ∀ l : List String, l.Nodup →
      ts.foldl (fun l id => updateRecentlyUsedCommands id l) l
        = mostRecentFirst ts.reverse ++ l.filter (fun x => decide (x ∉ ts)) := by
  induction ts with
  | nil =>
    intro l _
    simp [mostRecentFirst]
  | cons t ts ih =>
    intro l hl
    rw [List.foldl_cons, updateRecentlyUsedCommands_eq_cons_erase,
      ih (t :: l.erase t) (List.Nodup.cons hl.not_mem_erase (hl.erase t)),
      List.reverse_cons, mostRecentFirst_append_single]
    simp only [List.mem_reverse]
    by_cases ht : t ∈ ts
    · rw [if_pos ht, List.filter_cons_of_neg (by simp [ht]),
        hl.erase_eq_filter t, filter_ne_filter_not_mem]
    · rw [if_neg ht, List.filter_cons_of_pos (by simp [ht]),
        hl.erase_eq_filter t, filter_ne_filter_not_mem,
        List.append_assoc, List.singleton_append]

/-- C4: for every id and every recency state reachable by a sequence of
touches, `touch(id)` puts the id at position 0 (`indexOf` returns 0), and
every reachable recency list contains each id at most once and lists the
touched ids most-recent-first (it equals the reversed touch history
de-duplicated keeping most recent occurrences). -/
theorem touch_indexOf_zero_nodup_mostRecentFirst :
    (∀ (id : String) (l : List String),
        jsIndexOf (updateRecentlyUsedCommands id l) id = 0)
    ∧ (∀ touches : List String,
        (touchSequence touches).Nodup
        ∧ touchSequence touches = mostRecentFirst touches.reverse) := by
  constructor
  · intro id l
    rw [updateRecentlyUsedCommands_eq_cons_erase, jsIndexOf, if_pos]
    exact beq_self_eq_true id
  · intro touches
    have h := touchSequence_foldl touches [] List.nodup_nil
    rw [List.filter_nil, List.append_nil, ← touchSequence] at h
    exact ⟨h ▸ nodup_mostRecentFirst touches.reverse, h⟩

/-! ## Metadata extractor: `extractMetaFromFunction` -/

/-- The display metadata derived for one user function. -/
structure CommandMeta where
  name : List Char
  description : List Char
deriving DecidableEq, Repr

/-- The directive marker `// ~` (constant `paramPrefix` of the source). -/
def paramMarker : List Char := "// ~".data

/-- The `": "` separator the directive parser splits on. -/
def colonSep : List Char := ": ".data

/-- `allowedMeta` of the source — declared there but never consulted. -/
def allowedMeta : List String := ["name", "description"]

/-- The `foundMeta` object of `extractMetaFromFunction` (extension.js
lines 128-137): trim each line of the function source, keep lines that
start with the marker and contain `": "`, strip the first occurrence of
the marker, split on every `": "`, and accumulate `acc[key] = value`.
The array destructuring `[key, value]` keeps only the first two parts of
the split, so a value is cut at the first `": "` it contains. -/
def foundMeta (funcSourceLines : List (List Char)) :
    List (List Char × List Char) :=
  (((funcSourceLines.map jsTrim).filter
      (fun x => jsStartsWith paramMarker x && jsIncludes colonSep x)).map
      (fun x => jsSplit colonSep (jsReplace paramMarker [] x))).foldl
    (fun acc parts => jsObjectSet acc (parts.headD []) (parts.getD 1 []))
    []

/-- The camel-case fallback for the name (extension.js line 139):
`funcName.replace(/([A-Z])/g, " $1").replace(/^./, s => s.toUpperCase())`
— a space is inserted before every uppercase letter, then the first
character of the result is upper-cased. -/
def camelCaseName (funcName : String) : List Char :=
  match funcName.data.flatMap (fun c => if c.isUpper then [' ', c] else [c]) with
  | [] => []
  | c :: cs => c.toUpper :: cs

/-- `extractMetaFromFunction(funcName, func)` (extension.js lines
125-144).  The callable is represented by the lines of its source text
(`func.toString().split("\n")`).  JS `||` makes an empty directive value
fall back to the derived default. -/
def extractMetaFromFunction (funcName : String)
    (funcSourceLines : List (List Char)) : CommandMeta :=
  let fm := foundMeta funcSourceLines
  let name := jsOr (jsObjectGet fm "name".data) (camelCaseName funcName)
  { name := name
    description :=
      jsOr (jsObjectGet fm "description".data)
        ("Execute ".data ++ name ++ " function".data) }

/-! ### String-pipeline lemmas for the extractor -/

theorem jsSplit_nil (sep : List Char) (h : sep ≠ []) : jsSplit sep [] = [[]] := by
  rw [jsSplit]
  simp [List.isEmpty_iff, h]

theorem jsSplit_cons_pos (sep : List Char) (h : sep ≠ []) (c : Char) (rest : List Char)
    (hp : sep.isPrefixOf (c :: rest) = true) :
    jsSplit sep (c :: rest) = [] :: jsSplit sep ((c :: rest).drop sep.length) := by
  rw [jsSplit]
  simp [List.isEmpty_iff, h, hp]

theorem jsSplit_cons_neg (sep : List Char) (h : sep ≠ []) (c : Char) (rest : List Char)
    (hp : sep.isPrefixOf (c :: rest) = false) :
    jsSplit sep (c :: rest)
      = match jsSplit sep rest with
        | [] => [[c]]
        | t :: ts => (c :: t) :: ts := by
  rw [jsSplit]
  simp [List.isEmpty_iff, h, hp]

theorem jsSplit_of_not_infix (sep s : List Char) (h : ¬ sep <:+: s) :
    jsSplit sep s = [s] := by
  have hsep : sep ≠ [] := by
    intro he
    exact h (he ▸ List.nil_infix)
  induction s with
  | nil => exact jsSplit_nil sep hsep
  | cons c rest ih =>
    have hp : sep.isPrefixOf (c :: rest) = false := by
      rw [Bool.eq_false_iff]
      intro hpre
      exact h ((List.isPrefixOf_iff_prefix.mp hpre).isInfix)
    rw [jsSplit_cons_neg sep hsep c rest hp,
      ih (fun hi => h (hi.trans (List.suffix_cons c rest).isInfix))]

theorem jsSplit_append_sep (sep tail : List Char) (hsep : sep ≠ []) :
    jsSplit sep (sep ++ tail) = [] :: jsSplit sep tail := by
  obtain ⟨c, srest, rfl⟩ := List.exists_cons_of_ne_nil hsep
  have hform : (c :: srest) ++ tail = c :: (srest ++ tail) := rfl
  have hp : (c :: srest).isPrefixOf (c :: (srest ++ tail)) = true :=
    hform ▸ List.isPrefixOf_iff_prefix.mpr (List.prefix_append _ _)
  rw [hform, jsSplit_cons_pos _ hsep _ _ hp, ← hform, List.drop_left]

theorem jsSplit_key_cons (key tail : List Char) (hkey : ':' ∉ key) :
    jsSplit colonSep (key ++ (colonSep ++ tail)) = key :: jsSplit colonSep tail := by
  induction key with
  | nil =>
    rw [List.nil_append, jsSplit_append_sep colonSep tail (by decide)]
  | cons c key ih =>
    have hc : (':' == c) = false := by
      simp only [beq_eq_false_iff_ne, ne_eq]
      intro hcc
      exact hkey (hcc ▸ List.mem_cons_self c key)
    have hp : colonSep.isPrefixOf (c :: (key ++ (colonSep ++ tail))) = false := by
      simp [colonSep, List.isPrefixOf, hc]
    rw [List.cons_append, jsSplit_cons_neg colonSep (by decide) _ _ hp,
      ih (fun hm => hkey (List.mem_cons_of_mem c hm))]

theorem jsSplit_key_value (key tail : List Char) (hkey : ':' ∉ key)
    (htail : ¬ colonSep <:+: tail) :
    jsSplit colonSep (key ++ (colonSep ++ tail)) = [key, tail] := by
  rw [jsSplit_key_cons key tail hkey, jsSplit_of_not_infix colonSep tail htail]

theorem jsReplace_marker (pat rest : List Char) :
    jsReplace pat [] (pat ++ rest) = rest := by
  rw [jsReplace.eq_def, if_pos (List.isPrefixOf_iff_prefix.mpr (List.prefix_append _ _)),
    List.nil_append, List.drop_left]

theorem jsTrim_eq_self (s : List Char)
    (h1 : ∀ x, s.head? = some x → x.isWhitespace = false)
    (h2 : ∀ x, s.getLast? = some x → x.isWhitespace = false) :
    jsTrim s = s := by
  have e1 : s.dropWhile Char.isWhitespace = s := by
    cases s with
    | nil => rfl
    | cons x xs => rw [List.dropWhile_cons, h1 x rfl]; simp
  have e2 : s.reverse.dropWhile Char.isWhitespace = s.reverse := by
    cases hrev : s.reverse with
    | nil => rfl
    | cons y ys =>
      have hy : s.getLast? = some y := by
        rw [← List.head?_reverse, hrev]; rfl
      rw [List.dropWhile_cons, h2 y hy]; simp
  rw [jsTrim, e1, e2, List.reverse_reverse]

theorem jsObjectGet_set_ne (obj : List (List Char × List Char))
    (k v key : List Char) (hk : (k == key) = false) :
    jsObjectGet (jsObjectSet obj k v) key = jsObjectGet obj key := by
  induction obj with
  | nil => simp [jsObjectSet, jsObjectGet, hk]
  | cons kv rest ih =>
    rw [jsObjectSet]
    by_cases h1 : (kv.1 == k) = true
    · have h1' : kv.1 = k := by simpa using h1
      rw [if_pos h1, jsObjectGet, if_neg (by simp [hk]), jsObjectGet,
        if_neg (by simp [h1', hk])]
    · rw [if_neg h1, jsObjectGet, jsObjectGet]
      by_cases h2 : (kv.1 == key) = true
      · rw [if_pos h2, if_pos h2]
      · rw [if_neg h2, if_neg h2, ih]

theorem jsObjectGet_foldl_none (key : List Char) (ps : List (List (List Char))) :
    ∀ acc : List (List Char × List Char),
      jsObjectGet acc key = none → (∀ p ∈ ps, p.headD [] ≠ key) →
      jsObjectGet
        (ps.foldl (fun acc parts => jsObjectSet acc (parts.headD []) (parts.getD 1 [])) acc)
        key = none := by
  induction ps with
  | nil =>
    intro acc hacc _
    exact hacc
  | cons p ps ih =>
    intro acc hacc h
    rw [List.foldl_cons]
    refine ih _ ?_ (fun q hq => h q (List.mem_cons_of_mem p hq))
    rw [jsObjectGet_set_ne _ _ _ _ ?_, hacc]
    exact beq_eq_false_iff_ne.mpr (h p (List.mem_cons_self p ps))

theorem foundMeta_get_none (key : List Char) (lines : List (List Char))
    (h : ∀ line ∈ lines,
      ((jsSplit colonSep (jsReplace paramMarker [] (jsTrim line))).headD []) ≠ key) :
    jsObjectGet (foundMeta lines) key = none := by
  unfold foundMeta
  refine jsObjectGet_foldl_none key _ [] rfl ?_
  intro p hp
  obtain ⟨x, hx, rfl⟩ := List.mem_map.mp hp
  obtain ⟨hx1, _⟩ := List.mem_filter.mp hx
  obtain ⟨line, hline, rfl⟩ := List.mem_map.mp hx1
  exact h line hline

theorem jsObjectSet_nil (k vl : List Char) : jsObjectSet [] k vl = [(k, vl)] := rfl

theorem jsObjectSet_cons_of_ne (k1 v1 : List Char)
    (rest : List (List Char × List Char)) (k vl : List Char)
    (h : (k1 == k) = false) :
    jsObjectSet ((k1, v1) :: rest) k vl = (k1, v1) :: jsObjectSet rest k vl := by
  simp [jsObjectSet, h]

theorem jsObjectGet_cons_self (k vl : List Char)
    (rest : List (List Char × List Char)) :
    jsObjectGet ((k, vl) :: rest) k = some vl := by
  simp [jsObjectGet]

theorem jsObjectGet_cons_of_ne (k1 v1 : List Char)
    (rest : List (List Char × List Char)) (k : List Char)
    (h : (k1 == k) = false) :
    jsObjectGet ((k1, v1) :: rest) k = jsObjectGet rest k := by
  simp [jsObjectGet, h]

theorem directive_line_facts (key v : List Char) (c : Char)
    (hkc : ':' ∉ key) (hv : ¬ colonSep <:+: (v ++ [c]))
    (hc : c.isWhitespace = false) :
    jsTrim (paramMarker ++ (key ++ (colonSep ++ (v ++ [c]))))
        = paramMarker ++ (key ++ (colonSep ++ (v ++ [c])))
    ∧ (jsStartsWith paramMarker (paramMarker ++ (key ++ (colonSep ++ (v ++ [c]))))
        && jsIncludes colonSep (paramMarker ++ (key ++ (colonSep ++ (v ++ [c]))))) = true
    ∧ jsSplit colonSep
        (jsReplace paramMarker [] (paramMarker ++ (key ++ (colonSep ++ (v ++ [c])))))
        = [key, v ++ [c]] := by
  refine ⟨?_, ?_, ?_⟩
  · apply jsTrim_eq_self
    · intro x hx
      rw [show (paramMarker ++ (key ++ (colonSep ++ (v ++ [c])))).head? = some '/'
          from rfl] at hx
      cases hx
      decide
    · intro x hx
      rw [List.getLast?_append, List.getLast?_append, List.getLast?_append,
        List.getLast?_concat] at hx
      simp only [Option.or_some, Option.some.injEq] at hx
      rw [← hx]
      exact hc
  · rw [Bool.and_eq_true]
    constructor
    · exact List.isPrefixOf_iff_prefix.mpr (List.prefix_append _ _)
    · exact decide_eq_true ⟨paramMarker ++ key, v ++ [c], by simp⟩
  · rw [jsReplace_marker, jsSplit_key_value key _ hkc hv]

theorem jsSplit_colon_example :
    jsSplit colonSep "name: a: b".data = ["name".data, "a".data, "b".data] := by
  have h1 : "name: a: b".data = "name".data ++ (colonSep ++ "a: b".data) := rfl
  have h2 : "a: b".data = "a".data ++ (colonSep ++ "b".data) := rfl
  rw [h1, jsSplit_key_cons _ _ (by decide), h2, jsSplit_key_cons _ _ (by decide),
    jsSplit_of_not_infix colonSep "b".data (by decide)]

theorem extractMeta_colon_example :
    (extractMetaFromFunction "f" ["// ~name: a: b".data]).name = "a".data := by
  have htrim : jsTrim "// ~name: a: b".data = "// ~name: a: b".data := rfl
  have hcond : (jsStartsWith paramMarker "// ~name: a: b".data
      && jsIncludes colonSep "// ~name: a: b".data) = true := by decide
  have hrep : jsReplace paramMarker [] "// ~name: a: b".data = "name: a: b".data := rfl
  have hfm : foundMeta ["// ~name: a: b".data] = [("name".data, "a".data)] := by
    unfold foundMeta
    rw [List.map_cons, List.map_nil, htrim, List.filter_cons, hcond, if_pos rfl,
      List.filter_nil, List.map_cons, List.map_nil, hrep, jsSplit_colon_example,
      List.foldl_cons, List.foldl_nil, List.headD_cons, List.getD_cons_succ,
      List.getD_cons_zero, jsObjectSet_nil]
  simp only [extractMetaFromFunction]
  rw [hfm, jsObjectGet_cons_self]
  rfl

/-- C3 (amended): for every source text containing directive lines
`// ~name: <value>` and `// ~description: <value>`, the extractor uses the
value text up to the first `": "` it contains — in particular the full
value verbatim whenever the value contains no `": "` (the value here is an
arbitrary colon-space-free string `v ++ [c]` not ending in whitespace);
a value that does contain `": "` is truncated at its first occurrence
(`// ~name: a: b` yields name `a`, second conjunct). -/
theorem extract_value_upto_first_colon
    (funcName : String) (v w : List Char) (c d : Char)
    (hv : ¬ colonSep <:+: (v ++ [c])) (hw : ¬ colonSep <:+: (w ++ [d]))
    (hc : c.isWhitespace = false) (hd : d.isWhitespace = false) :
    extractMetaFromFunction funcName
        ["// ~name: ".data ++ (v ++ [c]), "// ~description: ".data ++ (w ++ [d])]
      = { name := v ++ [c], description := w ++ [d] }
    ∧ (extractMetaFromFunction "f" ["// ~name: a: b".data]).name = "a".data := by
  refine ⟨?_, extractMeta_colon_example⟩
  have hline1 : "// ~name: ".data ++ (v ++ [c])
      = paramMarker ++ ("name".data ++ (colonSep ++ (v ++ [c]))) := rfl
  have hline2 : "// ~description: ".data ++ (w ++ [d])
      = paramMarker ++ ("description".data ++ (colonSep ++ (w ++ [d]))) := rfl
  obtain ⟨ht1, hf1, hs1⟩ := directive_line_facts "name".data v c (by decide) hv hc
  obtain ⟨ht2, hf2, hs2⟩ := directive_line_facts "description".data w d (by decide) hw hd
  have hfm : foundMeta
      [paramMarker ++ ("name".data ++ (colonSep ++ (v ++ [c]))),
       paramMarker ++ ("description".data ++ (colonSep ++ (w ++ [d])))]
      = [("name".data, v ++ [c]), ("description".data, w ++ [d])] := by
    unfold foundMeta
    rw [List.map_cons, List.map_cons, List.map_nil, ht1, ht2,
      List.filter_cons, hf1, if_pos rfl, List.filter_cons, hf2, if_pos rfl,
      List.filter_nil, List.map_cons, List.map_cons, List.map_nil,
      hs1, hs2, List.foldl_cons, List.foldl_cons, List.foldl_nil,
      List.headD_cons, List.headD_cons, List.getD_cons_succ,
      List.getD_cons_succ, List.getD_cons_zero, List.getD_cons_zero,
      jsObjectSet_nil, jsObjectSet_cons_of_ne _ _ _ _ _ (by decide),
      jsObjectSet_nil]
  rw [hline1, hline2]
  simp only [extractMetaFromFunction]
  rw [hfm, jsObjectGet_cons_self,
    jsObjectGet_cons_of_ne _ _ _ _ (by decide), jsObjectGet_cons_self]
  simp [jsOr, List.isEmpty_iff]


/-- C2 counterexample: the claim expects identifier `getNowFromAPI` with no
directives to yield the name `Get Now From API`; the code's global regex
replacement inserts a space before every uppercase letter, so consecutive
capitals are also separated and the actual name is `Get Now From A P I`. -/
theorem extract_getNowFromAPI_counterexample :
    (extractMetaFromFunction "getNowFromAPI"
        ["async function getNowFromAPI()".data, "  return fetch(url)".data]).name
      ≠ "Get Now From API".data := by decide

/-- C2 (amended): for every identifier with no name directive in its source
text (and no description directive), the derived name is the identifier with
a space inserted before each uppercase letter — including each letter of a
consecutive capital run — and the first character of the result upper-cased,
and the description is `Execute <name> function`; in particular identifier
`getNowFromAPI` with no directives yields name `Get Now From A P I` and
description `Execute Get Now From A P I function`. -/
theorem extract_no_name_directive_camel
    (funcName : String) (lines : List (List Char))
    (hname : ∀ line ∈ lines,
      ((jsSplit colonSep (jsReplace paramMarker [] (jsTrim line))).headD [])
        ≠ "name".data)
    (hdesc : ∀ line ∈ lines,
      ((jsSplit colonSep (jsReplace paramMarker [] (jsTrim line))).headD [])
        ≠ "description".data) :
    extractMetaFromFunction funcName lines
      = { name := camelCaseName funcName
          description := "Execute ".data ++ camelCaseName funcName ++ " function".data }
    ∧ extractMetaFromFunction "getNowFromAPI"
        ["async function getNowFromAPI()".data, "  return fetch(url)".data]
      = { name := "Get Now From A P I".data
          description := "Execute Get Now From A P I function".data } := by
  constructor
  · simp only [extractMetaFromFunction]
    rw [foundMeta_get_none "name".data lines hname,
      foundMeta_get_none "description".data lines hdesc]
    rfl
  · decide

/-- Witness for the amended C2 theorem at a concrete input (empty source
text, so no directive line parses to a name or description key). -/
theorem extract_no_name_directive_camel_witness :
    (∀ line ∈ ([] : List (List Char)),
        ((jsSplit colonSep (jsReplace paramMarker [] (jsTrim line))).headD [])
          ≠ "name".data)
    ∧ extractMetaFromFunction "getNowFromAPI" []
        = { name := "Get Now From A P I".data
            description := "Execute Get Now From A P I function".data } := by
  refine ⟨by simp, ?_⟩
  rw [(extract_no_name_directive_camel "getNowFromAPI" [] (by simp) (by simp)).1]
  decide

/-- C3 counterexample: for the directive line `// ~name: a: b` the claim
predicts the verbatim name `a: b`, but the split on every `": "` followed by
the two-element destructuring truncates the value to `a`. -/
theorem extract_colon_value_counterexample :
    (extractMetaFromFunction "f" ["// ~name: a: b".data]).name ≠ "a: b".data := by
  rw [extractMeta_colon_example]
  decide

/-- Witness for the amended C3 theorem at concrete directive values
`Get Now` / `Fetch now.` (the examples of the specification). -/
theorem extract_value_upto_first_colon_witness :
    (¬ colonSep <:+: ("Get No".data ++ ['w']))
    ∧ extractMetaFromFunction "getNowFromAPI"
        ["// ~name: ".data ++ ("Get No".data ++ ['w']),
         "// ~description: ".data ++ ("Fetch now".data ++ ['.'])]
      = { name := "Get No".data ++ ['w'], description := "Fetch now".data ++ ['.'] } :=
  ⟨by decide,
    (extract_value_upto_first_colon "getNowFromAPI" "Get No".data "Fetch now".data
      'w' '.' (by decide) (by decide) (by decide) (by decide)).1⟩

/-! ## Command registry: `registerCustomCommands` -/

/-- The comparator passed to `Array.prototype.sort` in
`registerCustomCommands` (extension.js lines 248-263): if both ids are in
the recent list (`aIndex !== -1 && bIndex !== -1`) compare by position
(`aIndex - bIndex`); if only one is, prioritize it; otherwise keep original
order (return 0). -/
def recencyCompare (recentlyUsedCommands : List String) (a b : String) : Int :=
  if jsIndexOf recentlyUsedCommands a != -1 && jsIndexOf recentlyUsedCommands b != -1 then
    jsIndexOf recentlyUsedCommands a - jsIndexOf recentlyUsedCommands b
  else if jsIndexOf recentlyUsedCommands a != -1 then -1
  else if jsIndexOf recentlyUsedCommands b != -1 then 1
  else 0

/-- One insertion step of a stable insertion sort: the inserted element is
the earlier one, so it goes before every element it compares ≤ 0 to. -/
def jsSortInsert (cmp : String → String → Int) (a : String) :
    List String → List String
  | [] => [a]
  | b :: bs => if cmp a b ≤ 0 then a :: b :: bs else b :: jsSortInsert cmp a bs

/-- ES2019+ `Array.prototype.sort` is specified as a stable sort by the
comparator; for a consistent comparator every stable sort produces the same
list, embedded here as stable insertion sort. -/
def jsSort (cmp : String → String → Int) : List String → List String
  | [] => []
  | x :: xs => jsSortInsert cmp x (jsSort cmp xs)

/-- `orderedCommandIds` of `registerCustomCommands` (extension.js line 248):
`Array.from(customCommands.keys()).sort(comparator)`; the `Map` keys
enumerate in insertion order. -/
def orderedCommandIds (commands : List (String × CommandMeta))
    (recentlyUsedCommands : List String) : List String :=
  jsSort (recencyCompare recentlyUsedCommands) (commands.map Prod.fst)

/-! ### Sort lemmas -/

theorem jsIndexOf_bne_eq_true_iff (l : List String) (a : String) :
    ((jsIndexOf l a != -1) = true) ↔ a ∈ l := by
  rw [bne_iff_ne, ne_eq, jsIndexOf_eq_neg_one_iff, not_not]

theorem jsIndexOf_bne_eq_false_iff (l : List String) (a : String) :
    ((jsIndexOf l a != -1) = false) ↔ a ∉ l := by
  rw [← Bool.not_eq_true, jsIndexOf_bne_eq_true_iff]

theorem recencyCompare_present_present (rec : List String) (a b : String)
    (ha : a ∈ rec) (hb : b ∈ rec) :
    recencyCompare rec a b = jsIndexOf rec a - jsIndexOf rec b := by
  rw [recencyCompare, if_pos]
  rw [Bool.and_eq_true, jsIndexOf_bne_eq_true_iff, jsIndexOf_bne_eq_true_iff]
  exact ⟨ha, hb⟩

theorem recencyCompare_present_absent (rec : List String) (a b : String)
    (ha : a ∈ rec) (hb : b ∉ rec) :
    recencyCompare rec a b = -1 := by
  rw [recencyCompare,
    if_neg (by
      rw [Bool.and_eq_true]
      intro h
      exact hb ((jsIndexOf_bne_eq_true_iff rec b).mp h.2)),
    if_pos ((jsIndexOf_bne_eq_true_iff rec a).mpr ha)]

theorem recencyCompare_absent_present (rec : List String) (a b : String)
    (ha : a ∉ rec) (hb : b ∈ rec) :
    recencyCompare rec a b = 1 := by
  rw [recencyCompare,
    if_neg (by
      rw [Bool.and_eq_true]
      intro h
      exact ha ((jsIndexOf_bne_eq_true_iff rec a).mp h.1)),
    if_neg (by
      intro h
      exact ha ((jsIndexOf_bne_eq_true_iff rec a).mp h)),
    if_pos ((jsIndexOf_bne_eq_true_iff rec b).mpr hb)]

theorem recencyCompare_absent_absent (rec : List String) (a b : String)
    (ha : a ∉ rec) (hb : b ∉ rec) :
    recencyCompare rec a b = 0 := by
  rw [recencyCompare,
    if_neg (by
      rw [Bool.and_eq_true]
      intro h
      exact ha ((jsIndexOf_bne_eq_true_iff rec a).mp h.1)),
    if_neg (by
      intro h
      exact ha ((jsIndexOf_bne_eq_true_iff rec a).mp h)),
    if_neg (by
      intro h
      exact hb ((jsIndexOf_bne_eq_true_iff rec b).mp h))]

theorem jsSortInsert_eq_cons (cmp : String → String → Int) (x : String)
    (A : List String) (hA : ∀ a ∈ A, cmp x a ≤ 0) :
    jsSortInsert cmp x A = x :: A := by
  cases A with
  | nil => rfl
  | cons a as =>
    simp only [jsSortInsert, if_pos (hA a (List.mem_cons_self a as))]

theorem jsSortInsert_append_of_le (cmp : String → String → Int) (x : String)
    (P A : List String) (hA : ∀ a ∈ A, cmp x a ≤ 0) :
    jsSortInsert cmp x (P ++ A) = jsSortInsert cmp x P ++ A := by
  induction P with
  | nil =>
    rw [List.nil_append, jsSortInsert_eq_cons cmp x A hA]
    rfl
  | cons p ps ih =>
    by_cases hp : cmp x p ≤ 0
    · simp only [List.cons_append, jsSortInsert, if_pos hp, List.append_eq]
    · simp only [List.cons_append, jsSortInsert, if_neg hp, ih, List.append_eq]

theorem jsSortInsert_append_of_gt (cmp : String → String → Int) (x : String)
    (P A : List String) (hP : ∀ p ∈ P, ¬ cmp x p ≤ 0) :
    jsSortInsert cmp x (P ++ A) = P ++ jsSortInsert cmp x A := by
  induction P with
  | nil => rfl
  | cons p ps ih =>
    simp only [List.cons_append, jsSortInsert,
      if_neg (hP p (List.mem_cons_self p ps)),
      ih (fun q hq => hP q (List.mem_cons_of_mem p hq)), List.append_eq]

theorem jsSortInsert_perm (cmp : String → String → Int) (x : String)
    (l : List String) : (jsSortInsert cmp x l).Perm (x :: l) := by
  induction l with
  | nil => exact List.Perm.refl _
  | cons b bs ih =>
    rw [jsSortInsert]
    by_cases hb : cmp x b ≤ 0
    · rw [if_pos hb]
    · rw [if_neg hb]
      exact (ih.cons b).trans (List.Perm.swap x b bs)

theorem jsSortInsert_pairwise (rec : List String) (x : String) (P : List String)
    (hx : x ∈ rec) (hP : ∀ p ∈ P, p ∈ rec)
    (hs : P.Pairwise (fun a b => jsIndexOf rec a ≤ jsIndexOf rec b)) :
    (jsSortInsert (recencyCompare rec) x P).Pairwise
      (fun a b => jsIndexOf rec a ≤ jsIndexOf rec b) := by
  induction P with
  | nil => simp [jsSortInsert]
  | cons p ps ih =>
    have hp : p ∈ rec := hP p (List.mem_cons_self p ps)
    have hcmp : recencyCompare rec x p = jsIndexOf rec x - jsIndexOf rec p :=
      recencyCompare_present_present rec x p hx hp
    rw [jsSortInsert]
    by_cases hle : recencyCompare rec x p ≤ 0
    · rw [if_pos hle]
      have hxp : jsIndexOf rec x ≤ jsIndexOf rec p := by omega
      refine List.Pairwise.cons ?_ hs
      intro y hy
      rcases List.mem_cons.mp hy with h | h
      · exact h ▸ hxp
      · exact le_trans hxp ((List.pairwise_cons.mp hs).1 y h)
    · rw [if_neg hle]
      have hpx : jsIndexOf rec p ≤ jsIndexOf rec x := by omega
      refine List.Pairwise.cons ?_
        (ih (fun q hq => hP q (List.mem_cons_of_mem p hq))
          (List.pairwise_cons.mp hs).2)
      intro y hy
      have hy' : y ∈ x :: ps := (jsSortInsert_perm _ x ps).mem_iff.mp hy
      rcases List.mem_cons.mp hy' with h | h
      · exact h ▸ hpx
      · exact (List.pairwise_cons.mp hs).1 y h

theorem jsSort_recency_partition (rec : List String) (ids : List String) :
    ∃ P, jsSort (recencyCompare rec) ids
        = P ++ ids.filter (fun a => decide (a ∉ rec))
      ∧ P.Perm (ids.filter (fun a => decide (a ∈ rec)))
      ∧ P.Pairwise (fun a b => jsIndexOf rec a ≤ jsIndexOf rec b) := by
  induction ids with
  | nil => exact ⟨[], rfl, List.Perm.refl _, List.Pairwise.nil⟩
  | cons x ids ih =>
    obtain ⟨P, hEq, hPerm, hPair⟩ := ih
    have hPmem : ∀ p ∈ P, p ∈ rec := by
      intro p hp
      have := List.of_mem_filter (hPerm.mem_iff.mp hp)
      simpa using this
    have hAmem : ∀ a ∈ ids.filter (fun a => decide (a ∉ rec)), a ∉ rec := by
      intro a ha
      have := List.of_mem_filter ha
      simpa using this
    by_cases hx : x ∈ rec
    · refine ⟨jsSortInsert (recencyCompare rec) x P, ?_, ?_, ?_⟩
      · rw [jsSort, hEq,
          jsSortInsert_append_of_le _ _ _ _
            (fun a ha => by rw [recencyCompare_present_absent rec x a hx (hAmem a ha)]; omega),
          List.filter_cons_of_neg (by simp [hx])]
      · rw [List.filter_cons_of_pos (by simpa using hx)]
        exact (jsSortInsert_perm _ x P).trans (hPerm.cons x)
      · exact jsSortInsert_pairwise rec x P hx hPmem hPair
    · refine ⟨P, ?_, ?_, ?_⟩
      · rw [jsSort, hEq,
          jsSortInsert_append_of_gt _ _ _ _
            (fun p hp => by rw [recencyCompare_absent_present rec x p hx (hPmem p hp)]; omega),
          jsSortInsert_eq_cons _ _ _
            (fun a ha => by rw [recencyCompare_absent_absent rec x a hx (hAmem a ha)]),
          ← List.filter_cons_of_pos (by simpa using hx)]
      · rw [List.filter_cons_of_neg (by simpa using hx)]
        exact hPerm
      · exact hPair

/-- C1: for every command-entry set and every recency list, the order
computed by `registerCustomCommands` (its `orderedCommandIds`) is a block
of the ids present in the recency list — a permutation of them sorted
ascending by recency position (most recent first) — followed by the ids
absent from the recency list in their original relative order; in
particular for entries `A`, `B`, `C` (in insertion order) and recency list
`[C, A]` the registration order is `[C, A, B]`. -/
theorem registerCustomCommands_recency_order
    (commands : List (String × CommandMeta)) (recentlyUsedCommands : List String) :
    (∃ P, orderedCommandIds commands recentlyUsedCommands
        = P ++ (commands.map Prod.fst).filter
            (fun a => decide (a ∉ recentlyUsedCommands))
      ∧ P.Perm ((commands.map Prod.fst).filter
            (fun a => decide (a ∈ recentlyUsedCommands)))
      ∧ P.Pairwise (fun a b =>
          jsIndexOf recentlyUsedCommands a ≤ jsIndexOf recentlyUsedCommands b))
    ∧ orderedCommandIds [("A", ⟨[], []⟩), ("B", ⟨[], []⟩), ("C", ⟨[], []⟩)]
        ["C", "A"] = ["C", "A", "B"] :=
  ⟨jsSort_recency_partition recentlyUsedCommands (commands.map Prod.fst),
    by decide⟩

/-! ## Registration and the picker -/

/-- The fixed picker command id (extension.js line 273). -/
def pickCustomCommandId : String := "custom-commander.pickCustomCommand"

/-- `registerCustomCommands(context)` (extension.js lines 240-315): all
previous custom-command disposables are disposed and replaced; the new
active registrations are one per ordered command id plus, always, the
picker.  The returned list is the new `customCommandDisposables`,
identified by the registered command ids. -/
def registerCustomCommands (commands : List (String × CommandMeta))
    (recentlyUsedCommands : List String) : List String :=
  orderedCommandIds commands recentlyUsedCommands ++ [pickCustomCommandId]

/-- One entry of the picker quick-pick list. -/
structure QuickPickItem where
  label : List Char
  description : List Char
  commandId : String
deriving DecidableEq, Repr

/-- The quick-pick items presented by the picker callback (extension.js
lines 274-303): with no custom commands, a single synthetic
`Create Commands File` choice; otherwise one item per ordered command id,
annotated with a clock marker when the id is in the recent list. -/
def pickerQuickPickItems (commands : List (String × CommandMeta))
    (recentlyUsedCommands : List String) : List QuickPickItem :=
  if commands.length == 0 then
    [{ label := "$(file-add) Create Commands File".data
       description := "Create a new custom-commander.js file with sample functions".data
       commandId := "create-commands-file" }]
  else
    (orderedCommandIds commands recentlyUsedCommands).map (fun id =>
      let data := (List.lookup id commands).getD ⟨[], []⟩
      let isRecent := recentlyUsedCommands.contains id
      { label := (if isRecent then "$(clock) ".data else []) ++ data.name
        description := data.description
        commandId := id })

/-- C5: the fixed picker command is registered for every input, and
registering an empty command-entry set yields exactly one active
registration — the picker — whose quick-pick presents the single
empty-state "create a commands file" choice. -/
theorem register_always_picker_empty_singleton :
    (∀ (commands : List (String × CommandMeta)) (rec : List String),
        pickCustomCommandId ∈ registerCustomCommands commands rec)
    ∧ (∀ rec : List String,
        registerCustomCommands [] rec = [pickCustomCommandId]
        ∧ pickerQuickPickItems [] rec
            = [{ label := "$(file-add) Create Commands File".data
                 description := "Create a new custom-commander.js file with sample functions".data
                 commandId := "create-commands-file" }]) := by
  constructor
  · intro commands rec
    exact List.mem_append_right _ (List.mem_singleton.mpr rfl)
  · intro rec
    exact ⟨rfl, rfl⟩

/-! ## Command loader: `loadCustomCommands` -/

/-- One exported value of the user module: a callable (represented by the
lines of its source text) or any non-function export. -/
inductive ModuleExport where
  | func (srcLines : List (List Char))
  | nonFunction
deriving DecidableEq

/-- Outcome of `require(commandsPath)`: the exported name-value mapping, or
a thrown error with its message. -/
inductive RequireResult where
  | ok (exports : List (String × ModuleExport))
  | error (message : List Char)
deriving DecidableEq

/-- The state left by one `loadCustomCommands()` call: the rebuilt
`customCommands` map and the error notifications shown. -/
structure LoadResult where
  customCommands : List (String × CommandMeta)
  errorMessages : List (List Char)
deriving DecidableEq

/-- `loadCustomCommands()` (extension.js lines 149-176): clear the command
map; if the file is missing, stop with an empty map and no message;
otherwise require the module — on success register one command
`custom-commander.custom.<name>` per exported function (non-functions are
skipped), on a thrown error catch it and show
`Error loading custom-commander.js: <message>`, leaving the map empty.
The function is total: a load failure never escapes it. -/
def loadCustomCommands (fileExists : Bool) (requireResult : RequireResult) :
    LoadResult :=
  if !fileExists then { customCommands := [], errorMessages := [] }
  else
    match requireResult with
    | .ok exports =>
      { customCommands :=
          exports.foldl (fun acc pair =>
            match pair with
            | (funcName, .func srcLines) =>
              acc ++ [("custom-commander.custom." ++ funcName,
                extractMetaFromFunction funcName srcLines)]
            | (_, .nonFunction) => acc) []
        errorMessages := [] }
    | .error msg =>
      { customCommands := []
        errorMessages := ["Error loading custom-commander.js: ".data ++ msg] }

/-- C6: for every load attempt in which the definitions module fails to
load (the require throws, whatever the message), the failure is caught and
surfaced as a single visible error notification carrying the cause, and
the resulting command set is empty; `loadCustomCommands` is a total
function, so the host does not crash. -/
theorem loadCustomCommands_failure_caught (msg : List Char) :
    loadCustomCommands true (.error msg)
      = { customCommands := []
          errorMessages := ["Error loading custom-commander.js: ".data ++ msg] } :=
  rfl

/-! ## Command executor: `executeCustomCommand` -/

/-- A JavaScript value resolved by a user callable, as far as the executor
inspects it: `undefined`, `null`, or an object whose `popup` / `replace` /
`clipboard` fields are either absent (`undefined`) or strings (the executor
stringifies them, so strings model every value). -/
inductive JsValue where
  | undef
  | nullv
  | obj (popup replace clipboard : Option (List Char))
deriving DecidableEq

/-- The behaviour of `await command.func(selectedText)` on this invocation:
it throws / rejects with a message, or resolves with a value. -/
inductive CallOutcome where
  | throws (message : List Char)
  | returns (value : JsValue)
deriving DecidableEq

/-- Everything `executeCustomCommand` leaves behind: the updated recency
list, the number of silent reloads triggered (`reloadCommands(true)` inside
`updateRecentlyUsedCommands`), and the externally visible side effects in
order of occurrence. -/
structure ExecEffects where
  recentlyUsedCommands : List String
  silentReloads : Nat
  errorMessages : List (List Char)
  infoMessages : List (List Char)
  replacedSelections : List (List Char)
  clipboardWrites : List (List Char)
  statusBarMessages : List (List Char)
deriving DecidableEq

/-- The error notification `Error in "<name>": <message>` (extension.js
line 217). -/
def errorIn (name message : List Char) : List Char :=
  "Error in \"".data ++ name ++ "\": ".data ++ message

/-- Modelled from JS semantics: the `TypeError` message thrown when
`const { popup, replace, clipboard } = result` destructures `null`. -/
def destructureNullMessage : List Char :=
  "Cannot destructure property popup of result as it is null.".data

/-- `executeCustomCommand(commandId)` (extension.js lines 181-219).
`customCommands.get` is lookup in the insertion-ordered map with unique
keys; a miss shows `Custom command not found` and stops before any recency
update.  On a hit the recency list is updated (triggering one silent
reload) before the callable is awaited; a resolved `undefined` means no
side effect; destructuring a resolved `null` throws, landing in the catch
branch like a rejection; otherwise the `popup`, `replace` (only with an
active editor) and `clipboard` fields fire independently, the clipboard
write adding a status-bar confirmation truncated by `substring(0, 20)`. -/
def executeCustomCommand (commands : List (String × CommandMeta))
    (recentlyUsedCommands : List String) (commandId : String)
    (hasEditor : Bool) (outcome : CallOutcome) : ExecEffects :=
  match List.lookup commandId commands with
  | none =>
    { recentlyUsedCommands := recentlyUsedCommands
      silentReloads := 0
      errorMessages := ["Custom command not found".data]
      infoMessages := [], replacedSelections := []
      clipboardWrites := [], statusBarMessages := [] }
  | some command =>
    let recency := updateRecentlyUsedCommands commandId recentlyUsedCommands
    match outcome with
    | .throws msg =>
      { recentlyUsedCommands := recency
        silentReloads := 1
        errorMessages := [errorIn command.name msg]
        infoMessages := [], replacedSelections := []
        clipboardWrites := [], statusBarMessages := [] }
    | .returns .undef =>
      { recentlyUsedCommands := recency
        silentReloads := 1
        errorMessages := [], infoMessages := [], replacedSelections := []
        clipboardWrites := [], statusBarMessages := [] }
    | .returns .nullv =>
      { recentlyUsedCommands := recency
        silentReloads := 1
        errorMessages := [errorIn command.name destructureNullMessage]
        infoMessages := [], replacedSelections := []
        clipboardWrites := [], statusBarMessages := [] }
    | .returns (.obj popup replace clipboard) =>
      { recentlyUsedCommands := recency
        silentReloads := 1
        errorMessages := []
        infoMessages :=
          match popup with
          | some p => [p]
          | none => []
        replacedSelections :=
          match replace with
          | some r => if hasEditor then [r] else []
          | none => []
        clipboardWrites :=
          match clipboard with
          | some c => [c]
          | none => []
        statusBarMessages :=
          match clipboard with
          | some c => ["Copied to clipboard: ".data ++ c.take 20]
          | none => [] }

/-- C7: for every id absent from the current command set,
`executeCustomCommand` surfaces the command-not-found error and stops: the
recency list is unchanged, no silent reload is triggered, and no popup,
replace or clipboard side effect occurs. -/
theorem execute_not_found_no_effects
    (commands : List (String × CommandMeta)) (rec : List String)
    (commandId : String) (hasEditor : Bool) (outcome : CallOutcome)
    (h : List.lookup commandId commands = none) :
    executeCustomCommand commands rec commandId hasEditor outcome
      = { recentlyUsedCommands := rec
          silentReloads := 0
          errorMessages := ["Custom command not found".data]
          infoMessages := [], replacedSelections := []
          clipboardWrites := [], statusBarMessages := [] } := by
  rw [executeCustomCommand, h]

/-- Witness for C7 at a concrete input: an empty command set. -/
theorem execute_not_found_no_effects_witness :
    List.lookup "custom-commander.custom.f" ([] : List (String × CommandMeta))
        = none
    ∧ executeCustomCommand [] ["g"] "custom-commander.custom.f" true
        (.returns .undef)
      = { recentlyUsedCommands := ["g"]
          silentReloads := 0
          errorMessages := ["Custom command not found".data]
          infoMessages := [], replacedSelections := []
          clipboardWrites := [], statusBarMessages := [] } :=
  ⟨rfl, execute_not_found_no_effects [] ["g"] "custom-commander.custom.f" true
    (.returns .undef) rfl⟩

/-- C8: for every registered command whose callable throws or rejects, the
recency list has already been updated with that id at the front (the touch
happens before the callable is invoked, and `indexOf` of the id is 0), one
error message naming the command and carrying the failure message is
shown, and execution stops with no popup, replace or clipboard effect. -/
theorem execute_throws_recency_updated_error
    (commands : List (String × CommandMeta)) (rec : List String)
    (commandId : String) (hasEditor : Bool) (command : CommandMeta)
    (msg : List Char)
    (h : List.lookup commandId commands = some command) :
    executeCustomCommand commands rec commandId hasEditor (.throws msg)
      = { recentlyUsedCommands := commandId :: rec.erase commandId
          silentReloads := 1
          errorMessages := [errorIn command.name msg]
          infoMessages := [], replacedSelections := []
          clipboardWrites := [], statusBarMessages := [] }
    ∧ jsIndexOf
        (executeCustomCommand commands rec commandId hasEditor
          (.throws msg)).recentlyUsedCommands commandId = 0 := by
  have he : executeCustomCommand commands rec commandId hasEditor (.throws msg)
      = { recentlyUsedCommands := commandId :: rec.erase commandId
          silentReloads := 1
          errorMessages := [errorIn command.name msg]
          infoMessages := [], replacedSelections := []
          clipboardWrites := [], statusBarMessages := [] } := by
    rw [executeCustomCommand, h]
    simp only [updateRecentlyUsedCommands_eq_cons_erase]
  refine ⟨he, ?_⟩
  rw [he, jsIndexOf, if_pos (beq_self_eq_true commandId)]

/-- Witness for C8 at a concrete input. -/
theorem execute_throws_recency_updated_error_witness :
    List.lookup "custom-commander.custom.f"
        [("custom-commander.custom.f",
          ({ name := "F".data, description := "Execute F function".data } : CommandMeta))]
        = some { name := "F".data, description := "Execute F function".data }
    ∧ executeCustomCommand
        [("custom-commander.custom.f",
          { name := "F".data, description := "Execute F function".data })]
        ["g", "custom-commander.custom.f"] "custom-commander.custom.f" true
        (.throws "boom".data)
      = { recentlyUsedCommands := ["custom-commander.custom.f", "g"]
          silentReloads := 1
          errorMessages := [errorIn "F".data "boom".data]
          infoMessages := [], replacedSelections := []
          clipboardWrites := [], statusBarMessages := [] } := by
  refine ⟨rfl, ?_⟩
  rw [(execute_throws_recency_updated_error
    [("custom-commander.custom.f",
      { name := "F".data, description := "Execute F function".data })]
    ["g", "custom-commander.custom.f"] "custom-commander.custom.f" true
    { name := "F".data, description := "Execute F function".data }
    "boom".data rfl).1]
  decide

/-- C9: for every registered command whose callable resolves with
`{ clipboard: "abc" }` (no popup, no replace), execution writes exactly
`abc` to the clipboard with the truncated status-bar confirmation, and
performs no popup message, no text replacement and no error. -/
theorem execute_clipboard_only
    (commands : List (String × CommandMeta)) (rec : List String)
    (commandId : String) (hasEditor : Bool) (command : CommandMeta)
    (h : List.lookup commandId commands = some command) :
    executeCustomCommand commands rec commandId hasEditor
        (.returns (.obj none none (some "abc".data)))
      = { recentlyUsedCommands := commandId :: rec.erase commandId
          silentReloads := 1
          errorMessages := [], infoMessages := [], replacedSelections := []
          clipboardWrites := ["abc".data]
          statusBarMessages := ["Copied to clipboard: abc".data] } := by
  rw [executeCustomCommand, h]
  simp only [updateRecentlyUsedCommands_eq_cons_erase]
  rfl

/-- Witness for C9 at a concrete input. -/
theorem execute_clipboard_only_witness :
    List.lookup "custom-commander.custom.f"
        [("custom-commander.custom.f",
          ({ name := "F".data, description := "Execute F function".data } : CommandMeta))]
        = some { name := "F".data, description := "Execute F function".data }
    ∧ executeCustomCommand
        [("custom-commander.custom.f",
          { name := "F".data, description := "Execute F function".data })]
        [] "custom-commander.custom.f" false
        (.returns (.obj none none (some "abc".data)))
      = { recentlyUsedCommands := ["custom-commander.custom.f"]
          silentReloads := 1
          errorMessages := [], infoMessages := [], replacedSelections := []
          clipboardWrites := ["abc".data]
          statusBarMessages := ["Copied to clipboard: abc".data] } :=
  ⟨rfl, execute_clipboard_only
    [("custom-commander.custom.f",
      { name := "F".data, description := "Execute F function".data })]
    [] "custom-commander.custom.f" false
    { name := "F".data, description := "Execute F function".data } rfl⟩

/-- C10: only a resolved value of exactly `undefined` means "no side
effect": a callable resolving with `undefined` produces no message and no
effect beyond the recency touch, while a callable resolving with `null`
does not silently do nothing — destructuring the `null` result throws, the
catch branch runs, and a visible error naming the command is shown, the
recency update having already happened. -/
theorem execute_null_result_errors
    (commands : List (String × CommandMeta)) (rec : List String)
    (commandId : String) (hasEditor : Bool) (command : CommandMeta)
    (h : List.lookup commandId commands = some command) :
    executeCustomCommand commands rec commandId hasEditor (.returns .undef)
      = { recentlyUsedCommands := commandId :: rec.erase commandId
          silentReloads := 1
          errorMessages := [], infoMessages := [], replacedSelections := []
          clipboardWrites := [], statusBarMessages := [] }
    ∧ executeCustomCommand commands rec commandId hasEditor (.returns .nullv)
      = { recentlyUsedCommands := commandId :: rec.erase commandId
          silentReloads := 1
          errorMessages := [errorIn command.name destructureNullMessage]
          infoMessages := [], replacedSelections := []
          clipboardWrites := [], statusBarMessages := [] } := by
  constructor
  · rw [executeCustomCommand, h]
    simp only [updateRecentlyUsedCommands_eq_cons_erase]
  · rw [executeCustomCommand, h]
    simp only [updateRecentlyUsedCommands_eq_cons_erase]

/-- Witness for C10 at a concrete input. -/
theorem execute_null_result_errors_witness :
    List.lookup "custom-commander.custom.f"
        [("custom-commander.custom.f",
          ({ name := "F".data, description := "Execute F function".data } : CommandMeta))]
        = some { name := "F".data, description := "Execute F function".data }
    ∧ executeCustomCommand
        [("custom-commander.custom.f",
          { name := "F".data, description := "Execute F function".data })]
        [] "custom-commander.custom.f" true (.returns .nullv)
      = { recentlyUsedCommands := ["custom-commander.custom.f"]
          silentReloads := 1
          errorMessages := [errorIn "F".data destructureNullMessage]
          infoMessages := [], replacedSelections := []
          clipboardWrites := [], statusBarMessages := [] } :=
  ⟨rfl, (execute_null_result_errors
    [("custom-commander.custom.f",
      { name := "F".data, description := "Execute F function".data })]
    [] "custom-commander.custom.f" true
    { name := "F".data, description := "Execute F function".data } rfl).2⟩
